import Mathlib

/-!
Shallow embedding of the particles simulation (src/main.rs): the reporting
global allocator, the Particle entity, and the World population manager.
Numeric fields (f64 and f32 in the source) are modelled over the rationals;
the external random number generator is modelled by oracle parameters
constrained to the ranges the rand library guarantees, and the integer
range draw of World::update by a modular reduction of the raw generator
output.  The Vec backing buffer is modelled by the list of particles plus
an explicit capacity; Vec::remove out of bounds (a panic) is none.
-/

namespace Particles

/-- Two dimensional vector (graphics::math::Vec2d with f64 components). -/
structure Vec2 where
  x : ℚ
  y : ℚ
  deriving DecidableEq

/-- Componentwise vector addition (graphics::math::add). -/
def add (a b : Vec2) : Vec2 := ⟨a.x + b.x, a.y + b.y⟩

/-- Scalar multiplication (graphics::math::mul_scalar). -/
def mul_scalar (v : Vec2) (s : ℚ) : Vec2 := ⟨v.x * s, v.y * s⟩

/-- RGBA colour: the [f32; 4] array of the source, alpha channel last. -/
structure Rgba where
  r : ℚ
  g : ℚ
  b : ℚ
  a : ℚ
  deriving DecidableEq

/-- One simulated object in 2d space (struct Particle). -/
structure Particle where
  height : ℚ
  width : ℚ
  position : Vec2
  velocity : Vec2
  acceleration : Vec2
  color : Rgba
  deriving DecidableEq

/-- Population manager state (struct World).  The thread-local rng is an
oracle passed to the operations that draw from it; capacity is the Vec
backing capacity of the particles buffer. -/
structure World where
  current_turn : ℕ
  particles : List Particle
  capacity : ℕ
  height : ℚ
  width : ℚ
  deriving DecidableEq

/-- Random draws consumed by one Particle::new call:
gen_range(0.0..=width), gen_range(-2.0..0.0) and gen_range(0.0..0.15). -/
structure NewDraws where
  x : ℚ
  y_velocity : ℚ
  y_acceleration : ℚ
  deriving DecidableEq

/-- Ranges the rand library guarantees for the three draws of
Particle::new: x in [0, width], y_velocity in [-2, 0), y_acceleration in
[0, 0.15). -/
def NewDraws.InRange (d : NewDraws) (width : ℚ) : Prop :=
  0 ≤ d.x ∧ d.x ≤ width ∧
  -2 ≤ d.y_velocity ∧ d.y_velocity < 0 ∧
  0 ≤ d.y_acceleration ∧ d.y_acceleration < 15/100

/-- Particle::new: spawn at a random x on the bottom edge (y equal to the
world height), with zero horizontal velocity and acceleration, random
upward vertical velocity and acceleration, colour white with alpha 0.99,
and a fixed 4 by 4 extent. -/
def Particle.new (world : World) (d : NewDraws) : Particle :=
  { height := 4
    width := 4
    position := ⟨d.x, world.height⟩
    velocity := ⟨0, d.y_velocity⟩
    acceleration := ⟨0, d.y_acceleration⟩
    color := ⟨1, 1, 1, 99/100⟩ }

/-- Particle::update: velocity += acceleration, position += velocity,
acceleration *= 0.7, alpha *= 0.995, in that order (the position update
uses the freshly incremented velocity). -/
def Particle.update (p : Particle) : Particle :=
  let velocity := add p.velocity p.acceleration
  let position := add p.position velocity
  let acceleration := mul_scalar p.acceleration (7/10)
  let color : Rgba := { p.color with a := p.color.a * (995/1000) }
  { p with position := position, velocity := velocity,
           acceleration := acceleration, color := color }

/-- World::new: empty particle vector, turn counter 0, fixed bounds. -/
def World.new (width height : ℚ) : World :=
  { current_turn := 0, particles := [], capacity := 0,
    height := height, width := width }

/-- Vec::push on the particles buffer: appends at the end, growing the
backing capacity (doubling, as Vec does) when the buffer is full. -/
def World.pushParticle (w : World) (p : Particle) : World :=
  { w with particles := w.particles ++ [p],
           capacity := if w.particles.length = w.capacity
                       then max 1 (2 * w.capacity) else w.capacity }

/-- World::add_shapes: for |n| iterations create a particle from the
evolving world (consuming draw i on iteration i), box it and push it. -/
def World.add_shapes (w : World) (n : ℤ) (draws : ℕ → NewDraws) : World :=
  (List.range n.natAbs).foldl
    (fun acc i => acc.pushParticle (Particle.new acc (draws i))) w

/-- Vec::remove at index i: none when i is out of bounds (the panic
path of the source). -/
def vecRemove (l : List Particle) (i : ℕ) : Option (List Particle) :=
  if i < l.length then some (l.take i ++ l.drop (i + 1)) else none

/-- One iteration of the World::remove_shapes loop body.  The scan over
the particles executes its body at most once because of the unconditional
break, so to_delete is some 0 exactly when the collection is non-empty
and its front particle has alpha below 0.02; then index to_delete (or the
fallback index 0) is removed. -/
def removeOneShape (l : List Particle) : Option (List Particle) :=
  let to_delete : Option ℕ :=
    match l with
    | [] => none
    | p :: _ => if p.color.a < 2/100 then some 0 else none
  match to_delete with
  | some i => vecRemove l i
  | none => vecRemove l 0

/-- The |n| sequential removals performed by World::remove_shapes. -/
def removeIter : ℕ → List Particle → Option (List Particle)
  | 0, l => some l
  | k + 1, l => (removeOneShape l).bind (removeIter k)

/-- World::remove_shapes: |n| removals against the evolving collection;
none models the Vec::remove panic on an empty collection. -/
def World.remove_shapes (w : World) (n : ℤ) : Option World :=
  (removeIter n.natAbs w.particles).map fun l => { w with particles := l }

/-- rand gen_range(lo..=hi) on integers, modelled as a modular reduction
of the raw generator output r into [lo, hi]. -/
def genRange (lo hi : ℤ) (r : ℤ) : ℤ := lo + r % (hi - lo + 1)

/-- World::update (one tick): draw n in [-3, 3]; add shapes when n is
positive, otherwise remove shapes; shrink_to_fit the buffer; update every
remaining particle in collection order; increment the turn counter. -/
def World.update (w : World) (r : ℤ) (draws : ℕ → NewDraws) : Option World :=
  let n := genRange (-3) 3 r
  let afterPop := if n > 0 then some (w.add_shapes n draws)
                  else w.remove_shapes n
  afterPop.map fun w1 =>
    { w1 with particles := w1.particles.map Particle.update,
              capacity := w1.particles.length,
              current_turn := w1.current_turn + 1 }

/-- Layout of an allocation request (std::alloc::Layout). -/
structure Layout where
  size : ℕ
  align : ℕ
  deriving DecidableEq

/-- One telemetry line printed by the reporting allocator. -/
structure TelemetryRecord where
  bytes_requested : ℕ
  time_ns : ℕ
  deriving DecidableEq

/-- A call delegated to the platform (System) allocator. -/
inductive SysCall where
  | alloc (layout : Layout)
  | dealloc (ptr : ℕ) (layout : Layout)
  deriving DecidableEq

/-- ReportingAllocator::alloc: read the clock, delegate to System.alloc,
read the clock again, print exactly one record carrying the requested
byte count and the elapsed nanoseconds, and return the System pointer
unchanged.  The System allocator and the two clock reads are oracles; the
result lists the delegated call and the emitted telemetry. -/
def ReportingAllocator.alloc (sys : Layout → ℕ) (start finish : ℕ)
    (layout : Layout) : ℕ × List SysCall × List TelemetryRecord :=
  let ptr := sys layout
  let time_taken := finish - start
  let bytes_requested := layout.size
  (ptr, [SysCall.alloc layout], [⟨bytes_requested, time_taken⟩])

/-- ReportingAllocator::dealloc: delegate to System.dealloc and emit no
telemetry. -/
def ReportingAllocator.dealloc (ptr : ℕ) (layout : Layout) :
    List SysCall × List TelemetryRecord :=
  ([SysCall.dealloc ptr layout], [])

/-- A concrete visible particle, used by the concrete evaluations. -/
def pVis : Particle :=
  ⟨4, 4, ⟨1, 960⟩, ⟨0, -1⟩, ⟨0, 1/10⟩, ⟨1, 1, 1, 99/100⟩⟩

/-- A concrete near-invisible particle (alpha 0.01), used by the concrete
evaluations. -/
def pInv : Particle :=
  ⟨4, 4, ⟨2, 960⟩, ⟨0, -1⟩, ⟨0, 1/10⟩, ⟨1, 1, 1, 1/100⟩⟩

/-- A concrete world whose front particle is visible and whose second
particle is invisible, used by the concrete evaluations. -/
def wSample : World := ⟨0, [pVis, pInv], 2, 960, 1280⟩

/-- A concrete triple of draws for Particle::new, inside the ranges the
rand library guarantees for bounds 1280 by 960. -/
def dSample : NewDraws := ⟨100, -1, 1/10⟩

/-! Helper lemmas shared by several claims. -/

/-- Alpha after k updates is the starting alpha times 0.995 to the k. -/
theorem alpha_iterate (k : ℕ) (p : Particle) :
    ((Particle.update)^[k] p).color.a = p.color.a * (995/1000 : ℚ)^k := by
  induction k with
  | zero => simp
  | succ k ih =>
    rw [Function.iterate_succ_apply', pow_succ, ← mul_assoc, ← ih]
    rfl

/-- One update keeps both horizontal components zero and freezes the
horizontal position. -/
theorem update_horizontal (p : Particle) (hv : p.velocity.x = 0)
    (ha : p.acceleration.x = 0) :
    p.update.velocity.x = 0 ∧ p.update.acceleration.x = 0 ∧
      p.update.position.x = p.position.x := by
  simp [Particle.update, add, mul_scalar, hv, ha]

/-- On a non-empty collection one removal iteration deletes the front
element, whichever branch of the alpha test is taken. -/
theorem removeOneShape_cons (p : Particle) (l : List Particle) :
    removeOneShape (p :: l) = some l := by
  unfold removeOneShape vecRemove
  by_cases h : p.color.a < 2/100 <;> simp [h]

/-- When at least k particles are present, k removal iterations succeed
and delete exactly the first k particles, front first. -/
theorem removeIter_drop (k : ℕ) (l : List Particle) (h : k ≤ l.length) :
    removeIter k l = some (l.drop k) := by
  induction k generalizing l with
  | zero => rfl
  | succ k ih =>
    match l with
    | [] => simp at h
    | p :: t =>
      rw [removeIter, removeOneShape_cons, Option.some_bind,
        ih t (Nat.le_of_succ_le_succ h), List.drop_succ_cons]

/-- At least one removal iteration on an empty collection hits the
Vec::remove(0) panic. -/
theorem removeIter_empty (k : ℕ) (h : 1 ≤ k) :
    removeIter k ([] : List Particle) = none := by
  match k, h with
  | k + 1, _ =>
    rw [removeIter]
    rfl

/-- A successful removal run always deleted exactly the first k
particles. -/
theorem removeIter_some (k : ℕ) (l l' : List Particle)
    (h : removeIter k l = some l') : l' = l.drop k := by
  induction k generalizing l with
  | zero => simpa [removeIter] using h.symm
  | succ k ih =>
    match l with
    | [] =>
      rw [removeIter_empty (k + 1) (Nat.succ_le_succ (Nat.zero_le k))] at h
      exact absurd h (by simp)
    | p :: t =>
      rw [removeIter, removeOneShape_cons, Option.some_bind] at h
      rw [List.drop_succ_cons]
      exact ih t h

/-- The add_shapes loop preserves the turn counter and grows the
collection by one particle per iteration. -/
theorem add_loop_spec (draws : ℕ → NewDraws) (L : List ℕ) (w : World) :
    (L.foldl (fun acc i =>
        acc.pushParticle (Particle.new acc (draws i))) w).current_turn
      = w.current_turn ∧
    (L.foldl (fun acc i =>
        acc.pushParticle (Particle.new acc (draws i))) w).particles.length
      = w.particles.length + L.length := by
  induction L generalizing w with
  | nil => exact ⟨rfl, rfl⟩
  | cons i t ih =>
    obtain ⟨h1, h2⟩ := ih (w.pushParticle (Particle.new w (draws i)))
    refine ⟨h1, ?_⟩
    rw [List.foldl_cons, h2]
    simp [World.pushParticle]
    omega

/-- Every particle present after the add_shapes loop was either already
present or was created with the fixed 4 by 4 extent. -/
theorem add_loop_mem (draws : ℕ → NewDraws) (L : List ℕ) (w : World)
    (q : Particle)
    (hq : q ∈ (L.foldl (fun acc i =>
        acc.pushParticle (Particle.new acc (draws i))) w).particles) :
    q ∈ w.particles ∨ (q.height = 4 ∧ q.width = 4) := by
  induction L generalizing w with
  | nil => exact Or.inl hq
  | cons i t ih =>
    rw [List.foldl_cons] at hq
    rcases ih (w.pushParticle (Particle.new w (draws i))) hq with h | h
    · rcases List.mem_append.mp h with h' | h'
      · exact Or.inl h'
      · rcases List.mem_singleton.mp h' with rfl
        exact Or.inr ⟨rfl, rfl⟩
    · exact Or.inr h

/-- World::add_shapes preserves the turn counter and appends exactly |n|
particles. -/
theorem add_shapes_spec (w : World) (n : ℤ) (draws : ℕ → NewDraws) :
    (w.add_shapes n draws).current_turn = w.current_turn ∧
    (w.add_shapes n draws).particles.length
      = w.particles.length + n.natAbs := by
  have h := add_loop_spec draws (List.range n.natAbs) w
  simpa [World.add_shapes, List.length_range] using h

/-- A successful World::remove_shapes call preserves the turn counter and
drops exactly the first |n| particles. -/
theorem remove_shapes_some (w : World) (n : ℤ) (w' : World)
    (h : w.remove_shapes n = some w') :
    w'.current_turn = w.current_turn ∧
    w'.particles = w.particles.drop n.natAbs := by
  unfold World.remove_shapes at h
  rcases Option.map_eq_some'.mp h with ⟨l, hl, hw⟩
  subst hw
  exact ⟨rfl, removeIter_some _ _ _ hl⟩

/-- The modular model of gen_range lands inside the requested closed
interval. -/
theorem genRange_mem (lo hi r : ℤ) (h : lo ≤ hi) :
    lo ≤ genRange lo hi r ∧ genRange lo hi r ≤ hi := by
  unfold genRange
  have h1 : 0 ≤ r % (hi - lo + 1) := Int.emod_nonneg r (by omega)
  have h2 : r % (hi - lo + 1) < hi - lo + 1 := Int.emod_lt_of_pos r (by omega)
  omega

/-- World::update unfolded: route the draw to add or remove, then apply
the shrink, per-particle update and turn increment to the result. -/
theorem update_eq (w : World) (r : ℤ) (draws : ℕ → NewDraws) :
    w.update r draws =
      (if genRange (-3) 3 r > 0
       then some (w.add_shapes (genRange (-3) 3 r) draws)
       else w.remove_shapes (genRange (-3) 3 r)).map
        (fun w1 =>
          { w1 with particles := w1.particles.map Particle.update,
                    capacity := w1.particles.length,
                    current_turn := w1.current_turn + 1 }) := rfl

/-! Claim theorems. -/

/-- C3: one Particle::update call sets velocity to velocity plus
acceleration, then position to position plus the new velocity, then
scales acceleration by 0.7 and alpha by 0.995, leaving every other field
unchanged; it is a total state-to-state function (mutation in place,
no return value, no failure modes). -/
theorem particle_update_steps (p : Particle) :
    p.update =
      { height := p.height, width := p.width,
        position := add p.position (add p.velocity p.acceleration),
        velocity := add p.velocity p.acceleration,
        acceleration := mul_scalar p.acceleration (7/10),
        color := ⟨p.color.r, p.color.g, p.color.b,
                  p.color.a * (995/1000)⟩ } := rfl

/-- C5: ReportingAllocator::alloc delegates the layout to the System
allocator, returns that pointer unchanged, and emits exactly one
telemetry record carrying the requested size and the elapsed duration
between the two clock reads; ReportingAllocator::dealloc delegates to the
System allocator and emits no telemetry. -/
theorem allocator_telemetry (sys : Layout → ℕ) (start finish : ℕ)
    (layout : Layout) (ptr : ℕ) :
    (ReportingAllocator.alloc sys start finish layout).1 = sys layout ∧
    (ReportingAllocator.alloc sys start finish layout).2.1 =
      [SysCall.alloc layout] ∧
    (ReportingAllocator.alloc sys start finish layout).2.2 =
      [⟨layout.size, finish - start⟩] ∧
    ReportingAllocator.dealloc ptr layout =
      ([SysCall.dealloc ptr layout], []) :=
  ⟨rfl, rfl, rfl, rfl⟩

/-- C7: for every created particle, alpha after k updates equals
0.99 times 0.995 to the k (exactly, in the rational model), and alpha is
non-increasing from each update to the next. -/
theorem alpha_decay (w : World) (d : NewDraws) (k : ℕ) :
    ((Particle.update)^[k] (Particle.new w d)).color.a
        = (99/100 : ℚ) * (995/1000 : ℚ)^k ∧
    ((Particle.update)^[k+1] (Particle.new w d)).color.a
        ≤ ((Particle.update)^[k] (Particle.new w d)).color.a := by
  constructor
  · rw [alpha_iterate]
    rfl
  · rw [alpha_iterate, alpha_iterate]
    show (99/100 : ℚ) * (995/1000 : ℚ)^(k+1) ≤ (99/100 : ℚ) * (995/1000 : ℚ)^k
    have h1 : ((995:ℚ)/1000)^(k+1) ≤ ((995:ℚ)/1000)^k :=
      pow_le_pow_of_le_one (by norm_num) (by norm_num) (Nat.le_succ k)
    nlinarith [pow_nonneg (show (0:ℚ) ≤ 995/1000 by norm_num) k]

/-- C10: a created particle has zero horizontal velocity and
acceleration, both stay exactly zero across any number of updates, and
the horizontal position stays at the spawn draw forever: all motion is
vertical. -/
theorem horizontal_frozen (w : World) (d : NewDraws) (k : ℕ) :
    ((Particle.update)^[k] (Particle.new w d)).velocity.x = 0 ∧
    ((Particle.update)^[k] (Particle.new w d)).acceleration.x = 0 ∧
    ((Particle.update)^[k] (Particle.new w d)).position.x = d.x := by
  induction k with
  | zero => exact ⟨rfl, rfl, rfl⟩
  | succ k ih =>
    obtain ⟨hv, ha, hp⟩ := ih
    obtain ⟨hv', ha', hp'⟩ := update_horizontal _ hv ha
    rw [Function.iterate_succ_apply']
    exact ⟨hv', ha', by rw [hp', hp]⟩

/-- C1: one removal examines only the front particle (the unconditional
break) and removes it whether its alpha is below 0.02 (found invisible)
or not (fallback), independently of invisible particles further back;
remove_shapes applies this |n| times against the evolving front, so when
enough particles are present it deletes exactly the first |n| of them. -/
theorem remove_shapes_front (w : World) (n : ℤ)
    (h : n.natAbs ≤ w.particles.length) :
    (∀ (p : Particle) (l : List Particle),
        removeOneShape (p :: l) = some l) ∧
    w.remove_shapes n =
      some { w with particles := w.particles.drop n.natAbs } := by
  refine ⟨removeOneShape_cons, ?_⟩
  rw [World.remove_shapes, removeIter_drop n.natAbs w.particles h,
    Option.map_some']

/-- Witness for C1 at a concrete world: removing one shape from a world
whose visible front particle precedes an invisible one deletes the front
particle, not the invisible one. -/
theorem remove_shapes_front_witness :
    (1 : ℤ).natAbs ≤ wSample.particles.length ∧
    wSample.remove_shapes 1 =
      some { wSample with
             particles := wSample.particles.drop (1 : ℤ).natAbs } :=
  ⟨by decide, (remove_shapes_front wSample 1 (by decide)).2⟩

/-- C9: when the collection holds at least |n| particles, remove_shapes(n)
cannot hit the out-of-bounds branch of Vec::remove; on an empty
collection with |n| at least 1 it removes index 0 from an empty vector,
the panic modelled by none, instead of clamping to a no-op. -/
theorem remove_shapes_safety (w : World) (n : ℤ) :
    (n.natAbs ≤ w.particles.length →
      (w.remove_shapes n).isSome = true) ∧
    (w.particles = [] → 1 ≤ n.natAbs → w.remove_shapes n = none) := by
  constructor
  · intro h
    rw [World.remove_shapes, removeIter_drop n.natAbs w.particles h]
    rfl
  · intro he hn
    rw [World.remove_shapes, he, removeIter_empty n.natAbs hn]
    rfl

/-- Witness for C9 at concrete worlds: remove_shapes(1) panics on the
fresh empty world and succeeds on a two-particle world. -/
theorem remove_shapes_safety_witness :
    ((World.new 1280 960).particles = [] ∧ 1 ≤ (1 : ℤ).natAbs ∧
      (World.new 1280 960).remove_shapes 1 = none) ∧
    ((1 : ℤ).natAbs ≤ wSample.particles.length ∧
      (wSample.remove_shapes 1).isSome = true) :=
  ⟨⟨rfl, by decide,
      (remove_shapes_safety (World.new 1280 960) 1).2 rfl (by decide)⟩,
    ⟨by decide, (remove_shapes_safety wSample 1).1 (by decide)⟩⟩

/-- C2: one World::update tick draws an integer in [-3, 3]; a positive
draw routes to add_shapes with that count and a zero or negative draw
routes to remove_shapes; the surviving collection is then updated
particle by particle in collection order, the backing capacity is
compacted to the collection length, and the turn counter of the
resulting world is exactly one more than before. -/
theorem tick_behavior (w : World) (r : ℤ) (draws : ℕ → NewDraws) :
    (-3 ≤ genRange (-3) 3 r ∧ genRange (-3) 3 r ≤ 3) ∧
    w.update r draws =
      (if genRange (-3) 3 r > 0
       then some (w.add_shapes (genRange (-3) 3 r) draws)
       else w.remove_shapes (genRange (-3) 3 r)).map
        (fun w1 =>
          { w1 with particles := w1.particles.map Particle.update,
                    capacity := w1.particles.length,
                    current_turn := w1.current_turn + 1 }) ∧
    (w.update r draws).map (fun w' => (w'.capacity, w'.current_turn)) =
      (w.update r draws).map
        (fun w' => (w'.particles.length, w.current_turn + 1)) := by
  refine ⟨genRange_mem (-3) 3 r (by norm_num), update_eq w r draws, ?_⟩
  rw [update_eq]
  by_cases hn : genRange (-3) 3 r > 0
  · rw [if_pos hn]
    simp only [Option.map_some']
    rw [(add_shapes_spec w (genRange (-3) 3 r) draws).1]
    simp
  · rw [if_neg hn]
    rcases hrem : w.remove_shapes (genRange (-3) 3 r) with _ | w1
    · rfl
    · simp only [Option.map_some']
      rw [(remove_shapes_some w (genRange (-3) 3 r) w1 hrem).1]
      simp

/-- C4: when the despawn of a tick does not underflow the collection,
the tick succeeds and the population changes by exactly the draw, hence
by at most 3 in absolute value and with the sign of the draw. -/
theorem population_delta (w : World) (r : ℤ) (draws : ℕ → NewDraws)
    (h : genRange (-3) 3 r ≤ 0 →
      (genRange (-3) 3 r).natAbs ≤ w.particles.length) :
    ∃ w', w.update r draws = some w' ∧
      ((w'.particles.length : ℤ) - (w.particles.length : ℤ)
        = genRange (-3) 3 r) ∧
      |(w'.particles.length : ℤ) - (w.particles.length : ℤ)| ≤ 3 := by
  obtain ⟨hlo, hhi⟩ := genRange_mem (-3) 3 r (by norm_num)
  by_cases hn : genRange (-3) 3 r > 0
  · refine ⟨_, by rw [update_eq, if_pos hn, Option.map_some'], ?_, ?_⟩
    · simp only [List.length_map]
      rw [(add_shapes_spec w (genRange (-3) 3 r) draws).2]
      omega
    · rw [abs_le]
      simp only [List.length_map]
      rw [(add_shapes_spec w (genRange (-3) 3 r) draws).2]
      omega
  · have hk := h (by omega)
    have hrem : w.remove_shapes (genRange (-3) 3 r) =
        some { w with particles :=
                 w.particles.drop (genRange (-3) 3 r).natAbs } := by
      rw [World.remove_shapes, removeIter_drop _ _ hk, Option.map_some']
    refine ⟨_, by rw [update_eq, if_neg hn, hrem, Option.map_some'], ?_, ?_⟩
    · simp only [List.length_map, List.length_drop]
      omega
    · rw [abs_le]
      simp only [List.length_map, List.length_drop]
      omega

/-- Witness for C4 at a concrete tick: raw draw 5 gives n = 2, a spawn
of two particles from the fresh empty world. -/
theorem population_delta_witness :
    (genRange (-3) 3 5 ≤ 0 →
      (genRange (-3) 3 5).natAbs ≤ (World.new 1280 960).particles.length) ∧
    ∃ w', (World.new 1280 960).update 5 (fun _ => ⟨100, -1, 1/10⟩)
        = some w' ∧
      ((w'.particles.length : ℤ)
          - ((World.new 1280 960).particles.length : ℤ)
        = genRange (-3) 3 5) ∧
      |(w'.particles.length : ℤ)
          - ((World.new 1280 960).particles.length : ℤ)| ≤ 3 :=
  ⟨by decide,
    population_delta (World.new 1280 960) 5 (fun _ => ⟨100, -1, 1/10⟩)
      (by decide)⟩

/-- C6: a particle created by Particle::new spawns with horizontal
position given by the draw in [0, width], vertical position exactly the
world height, velocity (0, v) with v in [-2, 0), acceleration (0, a)
with a in [0, 0.15), alpha exactly 0.99 and a fixed 4 by 4 extent. -/
theorem particle_new_fields (w : World) (d : NewDraws)
    (h : d.InRange w.width) :
    0 ≤ (Particle.new w d).position.x ∧
    (Particle.new w d).position.x ≤ w.width ∧
    (Particle.new w d).position.y = w.height ∧
    (Particle.new w d).velocity.x = 0 ∧
    -2 ≤ (Particle.new w d).velocity.y ∧
    (Particle.new w d).velocity.y < 0 ∧
    (Particle.new w d).acceleration.x = 0 ∧
    0 ≤ (Particle.new w d).acceleration.y ∧
    (Particle.new w d).acceleration.y < 15/100 ∧
    (Particle.new w d).color.a = 99/100 ∧
    (Particle.new w d).height = 4 ∧
    (Particle.new w d).width = 4 := by
  obtain ⟨h1, h2, h3, h4, h5, h6⟩ := h
  exact ⟨h1, h2, rfl, rfl, h3, h4, rfl, h5, h6, rfl, rfl, rfl⟩

/-- Witness for C6 at concrete draws inside the guaranteed ranges. -/
theorem particle_new_fields_witness :
    dSample.InRange (World.new 1280 960).width ∧
    (0 ≤ (Particle.new (World.new 1280 960) dSample).position.x ∧
    (Particle.new (World.new 1280 960) dSample).position.x
        ≤ (World.new 1280 960).width ∧
    (Particle.new (World.new 1280 960) dSample).position.y
        = (World.new 1280 960).height ∧
    (Particle.new (World.new 1280 960) dSample).velocity.x = 0 ∧
    -2 ≤ (Particle.new (World.new 1280 960) dSample).velocity.y ∧
    (Particle.new (World.new 1280 960) dSample).velocity.y < 0 ∧
    (Particle.new (World.new 1280 960) dSample).acceleration.x = 0 ∧
    0 ≤ (Particle.new (World.new 1280 960) dSample).acceleration.y ∧
    (Particle.new (World.new 1280 960) dSample).acceleration.y < 15/100 ∧
    (Particle.new (World.new 1280 960) dSample).color.a = 99/100 ∧
    (Particle.new (World.new 1280 960) dSample).height = 4 ∧
    (Particle.new (World.new 1280 960) dSample).width = 4) :=
  have hin : dSample.InRange (World.new 1280 960).width := by
    unfold NewDraws.InRange
    refine ⟨by norm_num [dSample], by norm_num [dSample, World.new],
      by norm_num [dSample], by norm_num [dSample],
      by norm_num [dSample], by norm_num [dSample]⟩
  ⟨hin, particle_new_fields (World.new 1280 960) dSample hin⟩

/-- C8: Particle::update changes only position, velocity, acceleration
and the alpha channel of the colour, leaving the extent (height and
width) and the other colour channels untouched; and no other operation
mutates extents either: across a whole World::update tick a collection
of 4 by 4 particles stays a collection of 4 by 4 particles. -/
theorem extent_frame :
    (∀ p : Particle,
      p.update.height = p.height ∧ p.update.width = p.width ∧
      p.update.color.r = p.color.r ∧ p.update.color.g = p.color.g ∧
      p.update.color.b = p.color.b) ∧
    (∀ (w : World) (r : ℤ) (draws : ℕ → NewDraws) (w' : World),
      w.update r draws = some w' →
      (∀ q ∈ w.particles, q.height = 4 ∧ q.width = 4) →
      ∀ q ∈ w'.particles, q.height = 4 ∧ q.width = 4) := by
  constructor
  · intro p
    exact ⟨rfl, rfl, rfl, rfl, rfl⟩
  · intro w r draws w' hu hall q hq
    rw [update_eq] at hu
    by_cases hn : genRange (-3) 3 r > 0
    · rw [if_pos hn, Option.map_some'] at hu
      rcases Option.some.inj hu with rfl
      rcases List.mem_map.mp hq with ⟨q0, hq0, rfl⟩
      have h40 : q0.height = 4 ∧ q0.width = 4 := by
        rcases add_loop_mem draws (List.range (genRange (-3) 3 r).natAbs)
            w q0 hq0 with h | h
        · exact hall q0 h
        · exact h
      exact ⟨h40.1, h40.2⟩
    · rw [if_neg hn] at hu
      rcases Option.map_eq_some'.mp hu with ⟨w1, hw1, rfl⟩
      rcases List.mem_map.mp hq with ⟨q0, hq0, rfl⟩
      have hdrop := (remove_shapes_some w (genRange (-3) 3 r) w1 hw1).2
      rw [hdrop] at hq0
      exact hall q0 (List.drop_subset _ _ hq0)

/-- Witness for C8 at a concrete tick: raw draw 4 gives n = 1, one spawn
onto the all 4 by 4 sample world; the front particle survives updated and
keeps its 4 by 4 extent. -/
theorem extent_frame_witness :
    (Particle.update pVis).height = 4 ∧ (Particle.update pVis).width = 4 :=
  extent_frame.2 wSample 4 (fun _ => dSample)
    ⟨1, [Particle.update pVis, Particle.update pInv,
         Particle.update (Particle.new wSample dSample)], 3, 960, 1280⟩
    (by rfl) (by decide) (Particle.update pVis) (by exact List.Mem.head _)

end Particles
